import Mathlib

/-!
Shallow embedding of the `standard_enum.py`, `standard_message.py` and
`plugin/standard_plugin.py` modules of the python-betterproto repository,
together with theorems settling the specification claims C1-C10.
The first part of the file gives the definitions translated from the source,
the second part the theorems about them.
-/

/-- An enum type: the ordered list of its declared members, each a
(name, integer value) pair, mirroring a Python `StandardEnum` subclass
(which is an `enum.IntEnum`). -/
structure EnumDef where
  members : List (String × Int)
deriving DecidableEq

/-- `StandardEnum.try_value` from `standard_enum.py`: `cls(value)` looks a member up
by value (the first declared member with that value; later equal values are aliases);
on `ValueError` the code warns and returns `next(iter(cls.__members__.values()))`,
the first declared member.  The result pairs the returned member with a flag that is
`true` exactly when the fallback warning was emitted; `none` models the uncaught
`StopIteration` raised by `next` on an enum with no members at all. -/
def try_value (E : EnumDef) (v : Int) : Option ((String × Int) × Bool) :=
  match E.members.find? (fun m => m.2 == v) with
  | some m => some (m, false)
  | none =>
    match E.members.head? with
    | some m => some (m, true)
    | none => none

/-- Python exceptions raised by the enum helpers. -/
inductive PyErr where
  | valueError (msg : String)
  | keyError (msg : String)
deriving DecidableEq

/-- `StandardEnum.from_string` from `standard_enum.py`: `cls[name]` looks a member up
by name; the `KeyError` it raises on a missing name is caught and re-raised as a
`ValueError`. -/
def from_string (E : EnumDef) (s : String) : Except PyErr (String × Int) :=
  match E.members.find? (fun m => m.1 == s) with
  | some m => Except.ok m
  | none => Except.error (PyErr.valueError ("Unknown value " ++ s ++ " for enum"))

/-- Whether the first list is a leading segment of the second. -/
def isPfxOf : List Char → List Char → Bool
  | [], _ => true
  | _ :: _, [] => false
  | a :: as, b :: bs => a == b && isPfxOf as bs

/-- Whether the pattern occurs as a contiguous segment somewhere in the list. -/
def occursIn (pat : List Char) : List Char → Bool
  | [] => isPfxOf pat []
  | c :: rest => isPfxOf pat (c :: rest) || occursIn pat rest

/-- Python `str.replace(old, new)` for a nonempty `old`, on character lists: scan left
to right, replace each (non-overlapping) occurrence of `old` by `new` and resume after
it.  The fuel argument (instantiated with the list length) keeps the recursion
structural. -/
def pyReplaceFuel (old new : List Char) : Nat → List Char → List Char
  | _, [] => []
  | 0, s => s
  | fuel + 1, c :: rest =>
    if isPfxOf old (c :: rest) = true then
      new ++ pyReplaceFuel old new fuel ((c :: rest).drop old.length)
    else
      c :: pyReplaceFuel old new fuel rest

/-- Python `str.replace(old, new)` for a nonempty pattern `old`. -/
def pyReplace (old new s : List Char) : List Char :=
  pyReplaceFuel old new s.length s

/-- The characters of the pattern `".proto"`. -/
def protoExt : List Char := ['.', 'p', 'r', 'o', 't', 'o']

/-- The characters of the replacement `"_pb.py"`. -/
def pbExt : List Char := ['_', 'p', 'b', '.', 'p', 'y']

/-- The output-file name computed by `main` in `plugin/standard_plugin.py`:
`proto_name.replace(".proto", "_pb.py")`. -/
def outputName (name : String) : String :=
  String.mk (pyReplace protoExt pbExt name.data)

/-- One input file of the plugin request: its `name` and raw `content` entries
(a missing `name` entry is modelled as the empty string, matching
`proto_file.get("name", "")`). -/
structure ProtoFile where
  name : String
  content : String
deriving DecidableEq

/-- One entry of the plugin response's `file` list. -/
structure OutFile where
  name : String
  content : String
deriving DecidableEq

/-- The body of `main`'s per-file loop in `plugin/standard_plugin.py`: the external
parse / compile / template-render pipeline applied to the file's raw content is
abstracted into the two functions `hdr` and `bdy` (header template stage and body
template stage), and the response entry carries the derived output name and the
rendered header, a blank-line separator, and the rendered body. -/
def processFile (hdr bdy : String → String) (f : ProtoFile) : OutFile :=
  { name := outputName f.name
    content := hdr f.content ++ "\n\n" ++ bdy f.content }

/-- The response's `file` list built by `main`: one entry appended per input file, in
loop order, except that a file whose name is empty is skipped (`continue`). -/
def mainResponse (hdr bdy : String → String) (files : List ProtoFile) : List OutFile :=
  files.filterMap fun f => if f.name = "" then none else some (processFile hdr bdy f)

/-- The text written by `generate_code` in `plugin/standard_plugin.py`: the rendered
header template, then `"\n\n"`, then the rendered body template. -/
def generateCode (hdr bdy : String → String) (protoContent : String) : String :=
  hdr protoContent ++ "\n\n" ++ bdy protoContent

/-- A value stored in a dataclass field's metadata mapping. -/
inductive MetaVal where
  | mInt (n : Int)
  | mStr (s : String)
deriving DecidableEq

/-- The `dataclasses.Field` object produced by `dataclass_field` in
`standard_message.py`: its default (`None` when `optional`, else `MISSING`,
recorded by `defaultNone`) and its metadata mapping. -/
structure FieldRecord where
  defaultNone : Bool
  metadata : List (String × MetaVal)
deriving DecidableEq

/-- `dataclass_field` from `standard_message.py`: accepts the field number, the proto
type name and the keyword arguments `map_types`, `group`, `wraps` and `optional`, but
stores in the metadata mapping only the field number and the proto type name. -/
def dataclass_field (number : Int) (proto_type : String)
    (map_types : Option (String × String)) (group : Option String)
    (wraps : Option String) (optional : Bool) : FieldRecord :=
  { defaultNone := optional
    metadata := [("betterproto_field_number", MetaVal.mInt number),
                 ("betterproto_proto_type", MetaVal.mStr proto_type)] }

/-- `enum_field` from `standard_message.py`: passes through to `dataclass_field`
with proto type `"enum"`. -/
def enum_field (number : Int) (group : Option String) (optional : Bool) : FieldRecord :=
  dataclass_field number "enum" none group none optional

/-- `map_field` from `standard_message.py`: passes through to `dataclass_field`
with proto type `"map"` and the declared key/value types as `map_types`. -/
def map_field (number : Int) (key_type value_type : String)
    (group : Option String) : FieldRecord :=
  dataclass_field number "map" (some (key_type, value_type)) group none false

/-- Fatal compilation errors of the compiled-model builder. -/
inductive CompileErr where
  | duplicateFieldNumberError
deriving DecidableEq

/-- A declared schema field as seen by the duplicate-number check: its name and its
field number. -/
structure SpecField where
  name : String
  number : Int
deriving DecidableEq

/-- Modelled from the spec: the Compiler's duplicate-field-number check.  The compiler
module `betterproto.plugin.compiler` that the plugin imports is not part of the
repository sources; spec sections 4.3 and 7 state that compilation fails with
`DuplicateFieldNumberError` exactly when two fields in the same message share a field
number, and otherwise raises no such error. -/
def checkFieldNumbers : List SpecField → Except CompileErr Unit
  | [] => Except.ok ()
  | f :: rest =>
    if rest.any (fun g => g.number == f.number) then
      Except.error CompileErr.duplicateFieldNumberError
    else
      checkFieldNumbers rest

/-- The `__origin__` attribute of a Python type annotation: `odict` for
`typing.Dict[...]` (origin `dict`), `oother` for any other generic origin. -/
inductive PyOrigin where
  | odict
  | oother (name : String)
deriving DecidableEq

/-- A Python type annotation as inspected by `StandardMessage.from_dict`: only
whether it has an `__origin__` attribute and what that origin is matters there. -/
structure PyType where
  origin : Option PyOrigin
deriving DecidableEq

/-- A Python runtime value as handled by the `StandardMessage` conversion methods.
`vmsg` is a `StandardMessage` instance (its ordered dataclass fields), `vconverted`
stands for the unevaluated result of delegating `field_type.from_dict(value)` to the
field's declared type. -/
inductive PyVal where
  | vnone
  | vbool (b : Bool)
  | vint (n : Int)
  | vstr (s : String)
  | vlist (items : List PyVal)
  | vdict (entries : List (String × PyVal))
  | vmsg (fields : List (String × PyVal))
  | vdatetime (iso : String)
  | vtimedelta (seconds : Int)
  | vconverted (t : PyType) (v : PyVal)

/-- `isinstance(value, dict)`. -/
def isDictVal : PyVal → Bool
  | .vdict _ => true
  | _ => false

/-- Whether a value is a JSON primitive (`None`, `bool`, `int`, `str`). -/
def isPrimVal : PyVal → Bool
  | .vnone => true
  | .vbool _ => true
  | .vint _ => true
  | .vstr _ => true
  | _ => false

/-- Python dictionary lookup on an association list (first match wins; a Python dict
has distinct keys, so at most one entry matches). -/
def pyLookup {α : Type} : List (String × α) → String → Option α
  | [], _ => none
  | kv :: rest, k => if kv.1 = k then some kv.2 else pyLookup rest k

/-- The nested-message test of `StandardMessage.from_dict`: the supplied value is a
dict, the declared field type has an `__origin__` attribute, and that origin is not
`dict`. -/
def isNestedBranch (t : PyType) (v : PyVal) : Bool :=
  isDictVal v &&
    (match t.origin with
     | some o => decide (o ≠ PyOrigin.odict)
     | none => false)

/-- One entry of `from_dict`'s processing loop: values passing the nested-message
test are delegated to `field_type.from_dict` (kept abstract as `vconverted`); every
other value is stored unchanged. -/
def processEntry (t : PyType) (v : PyVal) : PyVal :=
  if isNestedBranch t v then PyVal.vconverted t v else v

/-- `from_dict`'s loop over `data.items()`: entries whose key has no declared type
hint are dropped; every other entry is processed by `processEntry` under its declared
type. -/
def fromDictProcess (field_types : List (String × PyType))
    (data : List (String × PyVal)) : List (String × PyVal) :=
  data.filterMap fun kv => (pyLookup field_types kv.1).map fun t => (kv.1, processEntry t kv.2)

/-- A dataclass field of a `StandardMessage` subclass: its name, its declared type
annotation, and its default (`none` models `MISSING`, i.e. a required field). -/
structure MsgField where
  name : String
  type : PyType
  dflt : Option PyVal

/-- A `StandardMessage` subclass: its ordered dataclass fields. -/
structure MsgClass where
  fields : List MsgField

/-- `get_type_hints(cls)` restricted to the dataclass fields. -/
def typeHints (cls : MsgClass) : List (String × PyType) :=
  cls.fields.map fun f => (f.name, f.type)

/-- `cls(**kwargs)`: each declared field takes the keyword value when present and its
default otherwise; a missing required field raises `TypeError`, modelled as `none`. -/
def mkInstance (cls : MsgClass) (kwargs : List (String × PyVal)) :
    Option (List (String × PyVal)) :=
  cls.fields.mapM fun f =>
    match pyLookup kwargs f.name with
    | some v => some (f.name, v)
    | none => f.dflt.map fun d => (f.name, d)

/-- `StandardMessage.from_dict` from `standard_message.py`: process the supplied
dict's items against the class's type hints, then call the class constructor on the
processed keyword arguments. -/
def from_dict (cls : MsgClass) (data : List (String × PyVal)) :
    Option (List (String × PyVal)) :=
  mkInstance cls (fromDictProcess (typeHints cls) data)

mutual

/-- The deep conversion performed by `StandardMessage.to_dict`: the composition of
`dataclasses.asdict` (which rewrites nested dataclass instances, dicts and lists into
plain dicts and lists) with the method's `_convert` helper (which maps messages to
dicts of converted values, converts inside lists and dicts, renders a `datetime` with
`isoformat()` and a `timedelta` as its total seconds followed by `"s"`, and returns
every other value unchanged). -/
def toDictVal : PyVal → PyVal
  | .vmsg fs => .vdict (toDictEntries fs)
  | .vdict es => .vdict (toDictEntries es)
  | .vlist xs => .vlist (toDictList xs)
  | .vdatetime iso => .vstr iso
  | .vtimedelta s => .vstr (toString s ++ "s")
  | .vnone => .vnone
  | .vbool b => .vbool b
  | .vint n => .vint n
  | .vstr s => .vstr s
  | .vconverted t v => .vconverted t v

/-- `toDictVal` over the entries of a dict or the fields of a message. -/
def toDictEntries : List (String × PyVal) → List (String × PyVal)
  | [] => []
  | (k, v) :: rest => (k, toDictVal v) :: toDictEntries rest

/-- `toDictVal` over the items of a list. -/
def toDictList : List PyVal → List PyVal
  | [] => []
  | v :: rest => toDictVal v :: toDictList rest

end

/-- `StandardMessage.to_dict`: `_convert(self)` takes the message branch, producing
the dict of the converted field values. -/
def to_dict (m : List (String × PyVal)) : List (String × PyVal) :=
  toDictEntries m

mutual

/-- A minimal rendering of `json.dumps` (string escaping elided; the theorems about
`to_json` use only its definitional composition with `to_dict`). -/
def jsonVal : PyVal → String
  | .vnone => "null"
  | .vbool b => if b then "true" else "false"
  | .vint n => toString n
  | .vstr s => "\"" ++ s ++ "\""
  | .vlist xs => "[" ++ jsonList xs ++ "]"
  | .vdict es => "\x7b" ++ jsonEntries es ++ "\x7d"
  | .vmsg fs => "\x7b" ++ jsonEntries fs ++ "\x7d"
  | .vdatetime iso => "\"" ++ iso ++ "\""
  | .vtimedelta s => toString s
  | .vconverted _ v => jsonVal v

/-- `jsonVal` over dict entries, comma separated. -/
def jsonEntries : List (String × PyVal) → String
  | [] => ""
  | [(k, v)] => "\"" ++ k ++ "\": " ++ jsonVal v
  | (k, v) :: kv :: rest => "\"" ++ k ++ "\": " ++ jsonVal v ++ ", " ++ jsonEntries (kv :: rest)

/-- `jsonVal` over list items, comma separated. -/
def jsonList : List PyVal → String
  | [] => ""
  | [v] => jsonVal v
  | v :: w :: rest => jsonVal v ++ ", " ++ jsonList (w :: rest)

end

/-- `json.dumps` applied to a dict. -/
def jsonDumps (entries : List (String × PyVal)) : String :=
  jsonVal (PyVal.vdict entries)

/-- `StandardMessage.to_json`: `json.dumps(self.to_dict())`. -/
def to_json (m : List (String × PyVal)) : String :=
  jsonDumps (to_dict m)

/-- `StandardMessage.from_json`: `cls.from_dict(json.loads(json_str))`, parameterized
by the external `json.loads`. -/
def from_json (cls : MsgClass) (loads : String → List (String × PyVal)) (s : String) :
    Option (List (String × PyVal)) :=
  from_dict cls (loads s)

/-- Looking up a member by name with `find?` returns exactly the declared
(name, value) pair when member names are distinct. -/
theorem find?_name_of_mem (l : List (String × Int)) (s : String) (v : Int)
    (hnodup : (l.map Prod.fst).Nodup) (hmem : (s, v) ∈ l) :
    l.find? (fun m => m.1 == s) = some (s, v) := by
  induction l with
  | nil => cases hmem
  | cons a t ih =>
    simp only [List.map_cons, List.nodup_cons] at hnodup
    rcases List.mem_cons.mp hmem with heq | htail
    · subst heq
      simp
    · have ha : a.1 ≠ s := by
        intro hc
        exact hnodup.1 (hc ▸ List.mem_map_of_mem Prod.fst htail)
      have hba : (a.1 == s) = false := by simpa using ha
      rw [List.find?_cons, hba]
      exact ih hnodup.2 htail

/-- C1: for every enum with at least one declared member and every integer value `v`
held by no declared member, `try_value` does not raise: it returns the first declared
member together with the fallback warning, so the fallback (default) member is exactly
the first declared member. -/
theorem try_value_unknown_returns_first_member (E : EnumDef) (v : Int)
    (hne : E.members ≠ []) (hunk : ∀ m ∈ E.members, m.2 ≠ v) :
    try_value E v = some (E.members.head hne, true) := by
  obtain ⟨ms⟩ := E
  simp only at hne hunk
  obtain ⟨m0, rest, hcons⟩ := List.exists_cons_of_ne_nil hne
  subst hcons
  have hfind : (m0 :: rest).find? (fun m => m.2 == v) = none := by
    rw [List.find?_eq_none]
    intro x hx
    simpa using hunk x hx
  simp [try_value, hfind]

/-- Witness for C1 at a concrete enum: `Color { RED = 0; GREEN = 1; BLUE = 2 }` with
the unknown value 99 falls back to `RED` with a warning. -/
theorem try_value_unknown_returns_first_member_witness :
    try_value ⟨[("RED", 0), ("GREEN", 1), ("BLUE", 2)]⟩ 99 = some (("RED", 0), true) :=
  try_value_unknown_returns_first_member ⟨[("RED", 0), ("GREEN", 1), ("BLUE", 2)]⟩ 99
    (by decide) (by decide)

/-- C9: for every enum whose member names are distinct (as Python guarantees) and
every string `s`, `from_string` returns the member named `s` when one exists, raises
`ValueError` when none does, and never lets a `KeyError` escape. -/
theorem from_string_spec (E : EnumDef) (s : String)
    (hnodup : (E.members.map Prod.fst).Nodup) :
    (∀ v, (s, v) ∈ E.members → from_string E s = Except.ok (s, v)) ∧
    ((∀ m ∈ E.members, m.1 ≠ s) →
      ∃ msg, from_string E s = Except.error (PyErr.valueError msg)) ∧
    (∀ msg, from_string E s ≠ Except.error (PyErr.keyError msg)) := by
  refine ⟨?_, ?_, ?_⟩
  · intro v hmem
    rw [from_string, find?_name_of_mem E.members s v hnodup hmem]
  · intro hnone
    have hfind : E.members.find? (fun m => m.1 == s) = none := by
      rw [List.find?_eq_none]
      intro x hx
      simpa using hnone x hx
    exact ⟨"Unknown value " ++ s ++ " for enum", by simp [from_string, hfind]⟩
  · intro msg hc
    unfold from_string at hc
    cases hfind : E.members.find? (fun m => m.1 == s) with
    | some m => rw [hfind] at hc; cases hc
    | none => rw [hfind] at hc; cases hc

/-- Witness for C9 at a concrete enum: looking `GREEN` up by name succeeds. -/
theorem from_string_spec_witness :
    from_string ⟨[("RED", 0), ("GREEN", 1)]⟩ "GREEN" = Except.ok ("GREEN", 1) :=
  (from_string_spec ⟨[("RED", 0), ("GREEN", 1)]⟩ "GREEN" (by decide)).1 1 (by decide)

/-- A list is a leading segment of itself followed by anything. -/
theorem isPfxOf_append (l t : List Char) : isPfxOf l (l ++ t) = true := by
  induction l with
  | nil => rfl
  | cons a as ih => simp [isPfxOf, ih]

/-- A leading segment of a list is a leading segment of any long-enough `take`. -/
theorem isPfxOf_take (pat : List Char) : ∀ (s : List Char) (n : Nat),
    isPfxOf pat s = true → pat.length ≤ n → isPfxOf pat (s.take n) = true := by
  induction pat with
  | nil => intro s n _ _; rfl
  | cons a as ih =>
    intro s n h hn
    cases s with
    | nil => cases h
    | cons b bs =>
      cases n with
      | zero => simp at hn
      | succ m =>
        simp only [isPfxOf, Bool.and_eq_true] at h
        simp only [List.take_succ_cons, isPfxOf, Bool.and_eq_true]
        refine ⟨h.1, ih bs m h.2 ?_⟩
        simp only [List.length_cons] at hn
        omega

/-- A pattern that is a leading segment occurs in the list. -/
theorem occursIn_of_isPfxOf (pat s : List Char) (h : isPfxOf pat s = true) :
    occursIn pat s = true := by
  cases s with
  | nil => exact h
  | cons c rest => simp [occursIn, h]

/-- The scan underlying `str.replace`: when the pattern's only occurrence in
`stem ++ old` is the trailing occurrence `old` itself (no occurrence fits inside
`dropLast`), the replacement rewrites exactly that trailing occurrence. -/
theorem pyReplaceFuel_ext (old new : List Char) (hold : old ≠ []) :
    ∀ (fuel : Nat) (stem : List Char),
      (stem ++ old).length ≤ fuel →
      occursIn old ((stem ++ old).dropLast) = false →
      pyReplaceFuel old new fuel (stem ++ old) = stem ++ new := by
  intro fuel
  induction fuel with
  | zero =>
    intro stem hlen _
    exfalso
    have hpos : 0 < old.length := List.length_pos.mpr hold
    simp only [List.length_append, Nat.le_zero] at hlen
    omega
  | succ f ih =>
    intro stem hlen hocc
    cases stem with
    | nil =>
      simp only [List.nil_append] at hlen hocc ⊢
      obtain ⟨o, os, rfl⟩ := List.exists_cons_of_ne_nil hold
      have hp : isPfxOf (o :: os) (o :: os) = true := by
        simpa using isPfxOf_append (o :: os) []
      simp only [pyReplaceFuel, hp, if_pos, List.drop_length]
      simp [pyReplaceFuel]
    | cons c stem' =>
      rw [List.cons_append] at hlen hocc ⊢
      have hlen' : (stem' ++ old).length ≤ f := by
        simp only [List.length_cons] at hlen
        omega
      have hne : stem' ++ old ≠ [] := by
        intro hc
        exact hold (List.append_eq_nil.mp hc).2
      obtain ⟨b, t', hbt⟩ := List.exists_cons_of_ne_nil hne
      rw [hbt, List.dropLast_cons₂] at hocc
      simp only [occursIn, Bool.or_eq_false_iff] at hocc
      have hcond : ¬ isPfxOf old (c :: (stem' ++ old)) = true := by
        intro hc
        have hle : old.length ≤ (c :: (stem' ++ old)).length - 1 := by
          simp only [List.length_cons, List.length_append]
          omega
        have htake := isPfxOf_take old _ _ hc hle
        rw [← List.dropLast_eq_take] at htake
        have hoc := occursIn_of_isPfxOf old _ htake
        rw [hbt, List.dropLast_cons₂] at hoc
        rw [show occursIn old (c :: (b :: t').dropLast)
              = (isPfxOf old (c :: (b :: t').dropLast) || occursIn old (b :: t').dropLast)
            from rfl] at hoc
        rw [hocc.1, hocc.2] at hoc
        cases hoc
      simp only [pyReplaceFuel, if_neg hcond]
      have hres := ih stem' hlen' (by rw [hbt]; exact hocc.2)
      rw [hres, List.cons_append]

/-- Counterexample to C3: on `"a.protox.proto"`, which ends in `".proto"`, `main`'s
`proto_name.replace(".proto", "_pb.py")` rewrites every occurrence of `".proto"`, not
only the final extension, so the output name is not the extension-only replacement. -/
theorem outputName_counterexample :
    "a.protox.proto" = "a.protox" ++ ".proto" ∧
    outputName "a.protox.proto" ≠ "a.protox" ++ "_pb.py" ∧
    outputName "a.protox.proto" = "a_pb.pyx_pb.py" := by
  decide

/-- C3 (amended): the generated output name is the input name with every occurrence
of the substring `".proto"` replaced by `"_pb.py"`; in particular, for every input
name whose only occurrence of `".proto"` is its final extension, the output name is
the input name with that extension replaced by `"_pb.py"`. -/
theorem outputName_only_extension (stem : List Char)
    (h : occursIn protoExt ((stem ++ protoExt).dropLast) = false) :
    outputName (String.mk (stem ++ protoExt)) = String.mk (stem ++ pbExt) := by
  show String.mk (pyReplaceFuel protoExt pbExt (stem ++ protoExt).length (stem ++ protoExt))
      = String.mk (stem ++ pbExt)
  exact congrArg String.mk
    (pyReplaceFuel_ext protoExt pbExt (by decide) (stem ++ protoExt).length stem
      (le_refl _) h)

/-- Witness for the amended C3 at a concrete input: `"point.proto"` maps to
`"point_pb.py"`. -/
theorem outputName_only_extension_witness :
    outputName "point.proto" = "point_pb.py" :=
  outputName_only_extension "point".data (by decide)

/-- C2: for every request whose proto files are all named (nonempty names), the
response contains exactly one generated output file per input file, and the response
entries appear in the order of the request's file list. -/
theorem mainResponse_one_output_per_input (hdr bdy : String → String)
    (files : List ProtoFile) (h : ∀ f ∈ files, f.name ≠ "") :
    mainResponse hdr bdy files = files.map (processFile hdr bdy) ∧
    (mainResponse hdr bdy files).length = files.length := by
  have hmap : mainResponse hdr bdy files = files.map (processFile hdr bdy) := by
    induction files with
    | nil => rfl
    | cons f rest ih =>
      have hf : f.name ≠ "" := h f (List.mem_cons_self f rest)
      have hrest := ih fun g hg => h g (List.mem_cons_of_mem f hg)
      simp only [mainResponse, List.filterMap_cons, if_neg hf, List.map_cons]
      exact congrArg _ hrest
  exact ⟨hmap, by rw [hmap, List.length_map]⟩

/-- Witness for C2 at a concrete two-file request. -/
theorem mainResponse_one_output_per_input_witness :
    mainResponse (fun _ => "H") (fun _ => "B")
        [ProtoFile.mk "a.proto" "x", ProtoFile.mk "b.proto" "y"]
      = [ProtoFile.mk "a.proto" "x", ProtoFile.mk "b.proto" "y"].map
          (processFile (fun _ => "H") (fun _ => "B")) ∧
    (mainResponse (fun _ => "H") (fun _ => "B")
        [ProtoFile.mk "a.proto" "x", ProtoFile.mk "b.proto" "y"]).length = 2 :=
  mainResponse_one_output_per_input (fun _ => "H") (fun _ => "B")
    [ProtoFile.mk "a.proto" "x", ProtoFile.mk "b.proto" "y"] (by decide)

/-- C8: every generated output consists of the rendered header stage, then the
blank-line separator, then the rendered body stage, both for the per-file loop of
`main` (each response entry's content has this shape for some input file) and for
`generate_code`'s file output. -/
theorem response_header_precedes_body (hdr bdy : String → String)
    (files : List ProtoFile) :
    (∀ f : ProtoFile, (processFile hdr bdy f).content
        = hdr f.content ++ "\n\n" ++ bdy f.content) ∧
    (∀ c : String, generateCode hdr bdy c = hdr c ++ "\n\n" ++ bdy c) ∧
    (∀ out ∈ mainResponse hdr bdy files, ∃ f ∈ files,
        out.content = hdr f.content ++ "\n\n" ++ bdy f.content) := by
  refine ⟨fun f => rfl, fun c => rfl, ?_⟩
  intro out hout
  rw [mainResponse, List.mem_filterMap] at hout
  obtain ⟨f, hf, hsome⟩ := hout
  by_cases hname : f.name = ""
  · rw [if_pos hname] at hsome
    cases hsome
  · rw [if_neg hname] at hsome
    injection hsome with hsome
    exact ⟨f, hf, by rw [← hsome]; rfl⟩

/-- Counterexample to C4: two fields created with different oneof group names produce
identical field records, so the group is not recoverable from the stored metadata. -/
theorem enum_field_group_counterexample :
    enum_field 1 (some "groupA") false = enum_field 1 (some "groupB") false ∧
    ("groupA" : String) ≠ "groupB" := by
  exact ⟨rfl, by decide⟩

/-- C4 (amended): a field created with a oneof group name is still classified by its
underlying type category (the proto type and the field number are stored in the
metadata), but the oneof group is discarded: the record does not depend on the group
argument at all, so the grouping is not recoverable from the field record. -/
theorem dataclass_field_drops_group (number : Int) (proto_type : String)
    (map_types : Option (String × String)) (group group2 : Option String)
    (wraps : Option String) (optional : Bool) :
    (dataclass_field number proto_type map_types group wraps optional).metadata
      = [("betterproto_field_number", MetaVal.mInt number),
         ("betterproto_proto_type", MetaVal.mStr proto_type)] ∧
    dataclass_field number proto_type map_types group wraps optional
      = dataclass_field number proto_type map_types group2 wraps optional ∧
    enum_field number group optional = enum_field number group2 optional :=
  ⟨rfl, rfl, rfl⟩

/-- Counterexample to C5: two map fields created with different key/value type pairs
produce identical field records, so the declared key and value type categories are
not recoverable from the stored metadata. -/
theorem map_field_types_counterexample :
    map_field 3 "string" "int32" none = map_field 3 "sint64" "bool" none ∧
    (("string", "int32") : String × String) ≠ ("sint64", "bool") := by
  exact ⟨rfl, by decide⟩

/-- C5 (amended): a map field's record stores only the field number and the proto
type `"map"` in its metadata; the declared key and value types passed as `map_types`
are discarded, so the record does not depend on them at all. -/
theorem map_field_drops_map_types (number : Int) (key_type value_type : String)
    (group : Option String) (key_type2 value_type2 : String) (group2 : Option String) :
    (map_field number key_type value_type group).metadata
      = [("betterproto_field_number", MetaVal.mInt number),
         ("betterproto_proto_type", MetaVal.mStr "map")] ∧
    map_field number key_type value_type group
      = map_field number key_type2 value_type2 group2 :=
  ⟨rfl, rfl⟩

/-- C6 (against the spec-modelled compiler check): the duplicate-field-number check
succeeds exactly on messages whose fields have pairwise distinct field numbers, and
fails with `DuplicateFieldNumberError` exactly when two fields share a number. -/
theorem checkFieldNumbers_spec (fields : List SpecField) :
    (checkFieldNumbers fields = Except.ok () ↔
      fields.Pairwise fun a b => a.number ≠ b.number) ∧
    (checkFieldNumbers fields = Except.error CompileErr.duplicateFieldNumberError ↔
      ¬ fields.Pairwise fun a b => a.number ≠ b.number) := by
  have main : checkFieldNumbers fields = Except.ok () ↔
      fields.Pairwise fun a b => a.number ≠ b.number := by
    induction fields with
    | nil => simp [checkFieldNumbers]
    | cons f rest ih =>
      rw [List.pairwise_cons]
      by_cases hany : rest.any (fun g => g.number == f.number) = true
      · rw [checkFieldNumbers, if_pos hany]
        simp only [List.any_eq_true, beq_iff_eq] at hany
        obtain ⟨g, hg, hgn⟩ := hany
        constructor
        · intro hc
          cases hc
        · intro hc
          exact absurd hgn.symm (hc.1 g hg)
      · rw [checkFieldNumbers, if_neg hany, ih]
        simp only [List.any_eq_true, beq_iff_eq, not_exists, not_and] at hany
        constructor
        · intro hp
          exact ⟨fun g hg hc => hany g hg hc.symm, hp⟩
        · intro hc
          exact hc.2
  refine ⟨main, ?_, ?_⟩
  · intro herr hp
    have := main.mpr hp
    rw [this] at herr
    cases herr
  · intro hnp
    cases hres : checkFieldNumbers fields with
    | ok u => exact absurd (main.mp (by rw [hres])) hnp
    | error e => cases e; rfl

/-- A key that appears among an association list's keys has a lookup result. -/
theorem pyLookup_mem {α : Type} (l : List (String × α)) (k : String)
    (h : k ∈ l.map Prod.fst) : ∃ v, pyLookup l k = some v := by
  induction l with
  | nil => cases h
  | cons kv rest ih =>
    by_cases hk : kv.1 = k
    · exact ⟨kv.2, by simp [pyLookup, hk]⟩
    · simp only [List.map_cons] at h
      rcases List.mem_cons.mp h with h1 | h2
      · exact absurd h1.symm hk
      · obtain ⟨v, hv⟩ := ih h2
        exact ⟨v, by simp [pyLookup, hk, hv]⟩

/-- The deep `to_dict` conversion leaves a JSON-primitive value unchanged. -/
theorem toDictVal_prim (v : PyVal) (h : isPrimVal v = true) : toDictVal v = v := by
  cases v <;> simp_all [isPrimVal, toDictVal]

/-- `to_dict` is the identity on a message all of whose field values are
JSON primitives. -/
theorem to_dict_prim (m : List (String × PyVal))
    (h : ∀ kv ∈ m, isPrimVal kv.2 = true) : to_dict m = m := by
  induction m with
  | nil => rfl
  | cons kv rest ih =>
    obtain ⟨k, v⟩ := kv
    rw [to_dict, toDictEntries, toDictVal_prim v (h (k, v) (List.mem_cons_self _ _))]
    rw [show toDictEntries rest = to_dict rest from rfl,
      ih fun g hg => h g (List.mem_cons_of_mem _ hg)]

/-- `from_dict`'s per-entry processing leaves a JSON-primitive value unchanged. -/
theorem processEntry_prim (t : PyType) (v : PyVal) (h : isPrimVal v = true) :
    processEntry t v = v := by
  cases v <;> simp_all [processEntry, isNestedBranch, isDictVal, isPrimVal]

/-- `from_dict`'s processing loop is the identity on data whose keys all carry a type
hint and whose values are all JSON primitives. -/
theorem fromDictProcess_prim (hints : List (String × PyType))
    (data : List (String × PyVal))
    (hk : ∀ kv ∈ data, kv.1 ∈ hints.map Prod.fst)
    (hp : ∀ kv ∈ data, isPrimVal kv.2 = true) :
    fromDictProcess hints data = data := by
  induction data with
  | nil => rfl
  | cons kv rest ih =>
    obtain ⟨t, ht⟩ := pyLookup_mem hints kv.1 (hk kv (List.mem_cons_self _ _))
    have hpe := processEntry_prim t kv.2 (hp kv (List.mem_cons_self _ _))
    have hrest := ih (fun g hg => hk g (List.mem_cons_of_mem _ hg))
      (fun g hg => hp g (List.mem_cons_of_mem _ hg))
    rw [fromDictProcess] at hrest ⊢
    simp only [List.filterMap_cons, ht, Option.map_some', hpe, hrest]

/-- Calling the class constructor with keyword arguments that list exactly the
declared fields, in order and with distinct names, reconstructs that association
list; the `big` argument lets lookups happen in any extension agreeing on those
keys. -/
theorem mkInstance_lookup (fs : List MsgField) :
    ∀ (sub big : List (String × PyVal)),
      fs.map MsgField.name = sub.map Prod.fst →
      (sub.map Prod.fst).Nodup →
      (∀ k ∈ sub.map Prod.fst, pyLookup big k = pyLookup sub k) →
      (fs.mapM fun f =>
        match pyLookup big f.name with
        | some v => some (f.name, v)
        | none => f.dflt.map fun d => (f.name, d)) = some sub := by
  induction fs with
  | nil =>
    intro sub big hk _ _
    cases sub with
    | nil => rfl
    | cons kv rest => simp at hk
  | cons f fs ih =>
    intro sub big hk hnd hbig
    cases sub with
    | nil => simp at hk
    | cons kv sub' =>
      simp only [List.map_cons, List.cons.injEq] at hk
      have hmemk : kv.1 ∈ (kv :: sub').map Prod.fst := by simp
      have hlook : pyLookup big f.name = some kv.2 := by
        rw [hk.1, hbig kv.1 hmemk]
        simp [pyLookup]
      simp only [List.map_cons, List.nodup_cons] at hnd
      have hbig' : ∀ k ∈ sub'.map Prod.fst, pyLookup big k = pyLookup sub' k := by
        intro k hkmem
        rw [hbig k (by simp [hkmem])]
        have hne : kv.1 ≠ k := fun hc => hnd.1 (hc ▸ hkmem)
        simp [pyLookup, hne]
      have hrest := ih sub' big hk.2 hnd.2 hbig'
      simp only [List.mapM_cons, hlook, hrest]
      have hfst : (f.name, kv.2) = kv := by
        rw [hk.1]
      simp [hfst]

/-- `cls(**m)` reconstructs `m` when `m` lists exactly the class's fields in order
with distinct names. -/
theorem mkInstance_self (cls : MsgClass) (m : List (String × PyVal))
    (hk : cls.fields.map MsgField.name = m.map Prod.fst)
    (hnd : (m.map Prod.fst).Nodup) :
    mkInstance cls m = some m :=
  mkInstance_lookup cls.fields m m hk hnd fun _ _ => rfl

/-- C7: during `from_dict` conversion, a field whose declared type cannot be
distinguished from a plain mapping type (its `__origin__` is `dict`) never takes the
nested-message branch: a dict value supplied for it is excluded from nested-message
conversion and stored unchanged in the processed data. -/
theorem from_dict_mapping_typed_field_skipped
    (field_types : List (String × PyType)) (data : List (String × PyVal))
    (name : String) (t : PyType) (v : PyVal)
    (hlook : pyLookup field_types name = some t)
    (horigin : t.origin = some PyOrigin.odict)
    (hmem : (name, v) ∈ data) :
    processEntry t v = v ∧ (name, v) ∈ fromDictProcess field_types data := by
  have hpe : processEntry t v = v := by
    simp [processEntry, isNestedBranch, horigin]
  refine ⟨hpe, ?_⟩
  rw [fromDictProcess, List.mem_filterMap]
  refine ⟨(name, v), hmem, ?_⟩
  simp [hlook, hpe]

/-- Witness for C7 at a concrete class: a field `tags` declared as a `Dict[...]`
annotation receives a dict value and is passed through unconverted. -/
theorem from_dict_mapping_typed_field_skipped_witness :
    processEntry ⟨some PyOrigin.odict⟩ (PyVal.vdict []) = PyVal.vdict [] ∧
    ("tags", PyVal.vdict []) ∈ fromDictProcess [("tags", ⟨some PyOrigin.odict⟩)]
        [("tags", PyVal.vdict [])] :=
  from_dict_mapping_typed_field_skipped [("tags", ⟨some PyOrigin.odict⟩)]
    [("tags", PyVal.vdict [])] "tags" ⟨some PyOrigin.odict⟩ (PyVal.vdict [])
    rfl rfl (List.mem_cons_self _ _)

/-- C10: for every message instance whose field values are all JSON primitives (no
nested messages, lists, dicts, datetimes or timedeltas), `from_dict (to_dict m)`
reconstructs `m`; `to_json` is definitionally `json.dumps` of `to_dict`; and for any
`json.loads` inverting that serialization, `from_json (to_json m)` also
reconstructs `m`. -/
theorem to_dict_from_dict_roundtrip (cls : MsgClass) (m : List (String × PyVal))
    (hkeys : cls.fields.map MsgField.name = m.map Prod.fst)
    (hnodup : (m.map Prod.fst).Nodup)
    (hprim : ∀ kv ∈ m, isPrimVal kv.2 = true) :
    from_dict cls (to_dict m) = some m ∧
    to_json m = jsonDumps (to_dict m) ∧
    (∀ loads : String → List (String × PyVal),
      loads (to_json m) = to_dict m → from_json cls loads (to_json m) = some m) := by
  have htd : to_dict m = m := to_dict_prim m hprim
  have hkhints : ∀ kv ∈ m, kv.1 ∈ (typeHints cls).map Prod.fst := by
    intro kv hkv
    have hsame : (typeHints cls).map Prod.fst = cls.fields.map MsgField.name := by
      rw [typeHints, List.map_map]
      rfl
    rw [hsame, hkeys]
    exact List.mem_map_of_mem Prod.fst hkv
  have hproc : fromDictProcess (typeHints cls) m = m :=
    fromDictProcess_prim _ m hkhints hprim
  have h1 : from_dict cls (to_dict m) = some m := by
    rw [htd, from_dict, hproc]
    exact mkInstance_self cls m hkeys hnodup
  refine ⟨h1, rfl, ?_⟩
  intro loads hl
  rw [from_json, hl]
  exact h1

/-- Witness for C10 at a concrete message with two primitive fields. -/
theorem to_dict_from_dict_roundtrip_witness :
    from_dict ⟨[⟨"x", ⟨none⟩, none⟩, ⟨"y", ⟨none⟩, none⟩]⟩
        (to_dict [("x", PyVal.vint 1), ("y", PyVal.vstr "a")])
      = some [("x", PyVal.vint 1), ("y", PyVal.vstr "a")] :=
  (to_dict_from_dict_roundtrip ⟨[⟨"x", ⟨none⟩, none⟩, ⟨"y", ⟨none⟩, none⟩]⟩
      [("x", PyVal.vint 1), ("y", PyVal.vstr "a")] rfl (by decide) (by decide)).1
